import Mathlib

/-!
# Spotitube: track identification and synchronisation

A shallow embedding of `src/spotitube/track.go` and of the main loop of
`src/main/main.go`, followed by the properties established about them.

Go strings are modelled as lists of runes (`GoString`).  Everything the program
takes from outside its own source (the Unicode case table, the transliteration
table of the `sanitize` package, the default file extension, the file system
probe) is collected in `Env` and passed explicitly.
-/

namespace Spotitube

/-- A Go string, as its sequence of runes. -/
abbrev GoString := List Char

/-- External data the program reads but does not define. -/
structure Env where
  /-- The Unicode lower-case mapping for runes above ASCII (`unicode.ToLower`). -/
  lowerRune : Char → Char
  /-- The `transliterations` table of `github.com/kennygrant/sanitize`. -/
  transliterations : Char → Option GoString
  /-- The constant `DEFAULT_EXTENSION`. -/
  DEFAULT_EXTENSION : GoString
  /-- The value of `!os.IsNotExist(err)` after `os.Stat` of this name. -/
  fileExists : GoString → Bool

/-! ## Go standard library -/

/-- Number of bytes of a string (`len(s)` in Go). -/
def len (s : GoString) : Nat :=
  (s.map (fun c => c.utf8Size)).sum

/-- The rune mapping `unicode.ToLower`: ASCII is folded arithmetically, the rest by table. -/
def toLowerRune (env : Env) (r : Char) : Char :=
  if r.toNat ≤ 127 then r.toLower else env.lowerRune r

/-- Go `strings.ToLower`. -/
def ToLower (env : Env) (s : GoString) : GoString :=
  s.map (toLowerRune env)

/-- Go `strings.HasPrefix`. -/
def HasPrefix : GoString → GoString → Bool
  | _, [] => true
  | [], _ :: _ => false
  | c :: s, d :: p => c == d && HasPrefix s p

/-- Go `strings.Contains`. -/
def Contains : GoString → GoString → Bool
  | [], sub => HasPrefix [] sub
  | c :: s, sub => HasPrefix (c :: s) sub || Contains s sub

/-- Helper of `Replace`: the counter is the number of runes of a matched occurrence still
to be skipped. -/
def replaceAux (old new : GoString) : Nat → GoString → GoString
  | _, [] => []
  | k + 1, _ :: s => replaceAux old new k s
  | 0, c :: s =>
    if HasPrefix (c :: s) old then new ++ replaceAux old new (old.length - 1) s
    else c :: replaceAux old new 0 s

/-- Go `strings.Replace(s, old, new, -1)` for a non-empty `old` (every call site passes a
non-empty literal): all non-overlapping occurrences, leftmost first. -/
def Replace (s old new : GoString) : GoString :=
  replaceAux old new 0 s

/-- The first element of `strings.Split(s, sep)` for a non-empty `sep` (every call site
passes a non-empty literal): the part of `s` before the first occurrence of `sep`. -/
def SplitFirst (sep : GoString) : GoString → GoString
  | [] => []
  | c :: s => if HasPrefix (c :: s) sep then [] else c :: SplitFirst sep s

/-- Go `unicode.IsSpace`. -/
def isSpace (c : Char) : Bool :=
  let n := c.toNat
  (9 ≤ n && n ≤ 13) || n == 32 || n == 0x85 || n == 0xA0 || n == 0x1680 ||
  (0x2000 ≤ n && n ≤ 0x200A) || n == 0x2028 || n == 0x2029 || n == 0x202F ||
  n == 0x205F || n == 0x3000

/-- Drop the longest suffix whose runes satisfy `p`. -/
def trimRight (p : Char → Bool) (s : GoString) : GoString :=
  (s.reverse.dropWhile p).reverse

/-- Drop the longest prefix and the longest suffix whose runes satisfy `p`. -/
def trimBoth (p : Char → Bool) (s : GoString) : GoString :=
  trimRight p (s.dropWhile p)

/-- Go `strings.TrimSpace`. -/
def TrimSpace (s : GoString) : GoString :=
  trimBoth isSpace s

/-- Go `strings.Join`. -/
def Join : List GoString → GoString → GoString
  | [], _ => []
  | [a], _ => a
  | a :: b :: rest, sep => a ++ sep ++ Join (b :: rest) sep

/-- Go `strconv.Itoa` on a non-negative number. -/
def Itoa (n : Nat) : GoString :=
  Nat.toDigits 10 n

/-- Go `path.Base`. -/
def pathBase (p : GoString) : GoString :=
  if p = [] then ['.']
  else
    let q := trimRight (fun c => c == '/') p
    let e := (q.reverse.takeWhile (fun c => c != '/')).reverse
    if e = [] then ['/'] else e

/-! ## The `sanitize` package -/

/-- The function `sanitize.Accents`: every rune with a transliteration is replaced by it. -/
def Accents (env : Env) : GoString → GoString
  | [] => []
  | c :: s =>
    match env.transliterations c with
    | some v => v ++ Accents env s
    | none => c :: Accents env s

/-- The regular expression `separators`, `[ &_=+:]`. -/
def isSeparator (c : Char) : Bool :=
  c == ' ' || c == '&' || c == '_' || c == '=' || c == '+' || c == ':'

/-- Complement of the regular expression `illegalName`, `[^[:alnum:]-.]`. -/
def isLegalName (c : Char) : Bool :=
  c.isAlphanum || c == '-' || c == '.'

/-- The regular expression `dashes`, `[\-]+`, replaced by a single dash. -/
def collapseDashes : GoString → GoString
  | [] => []
  | c :: s => if c == '-' && s.head? == some '-' then collapseDashes s else c :: collapseDashes s

/-- The function `cleanString(s, illegalName)` of `sanitize`. -/
def cleanString (env : Env) (s : GoString) : GoString :=
  let s := trimBoth (fun c => c == ' ') s
  let s := Accents env s
  let s := s.map (fun c => if isSeparator c then '-' else c)
  let s := s.filter isLegalName
  collapseDashes s

/-- The function `sanitize.Name`.  (`path.Clean` returns a single path element, which is
what `path.Base` yields, unchanged, so only `path.Base` appears.) -/
def sanitizeName (env : Env) (s : GoString) : GoString :=
  cleanString env (pathBase (ToLower env s))

/-! ## `spotitube/track.go` -/

/-- The constant `SongTypeAlbum` (`iota` 0). -/
def SongTypeAlbum : Nat := 0

/-- The constant `SongTypeLive` (`iota` 1). -/
def SongTypeLive : Nat := 1

/-- The constant `SongTypeCover` (`iota` 2). -/
def SongTypeCover : Nat := 2

/-- The constant `SongTypeRemix` (`iota` 3). -/
def SongTypeRemix : Nat := 3

/-- The constant `SongTypeAcoustic` (`iota` 4). -/
def SongTypeAcoustic : Nat := 4

/-- The constant `SongTypeKaraoke` (`iota` 5). -/
def SongTypeKaraoke : Nat := 5

/-- The type `spotify.Image`. -/
structure Image where
  Height : Int
  Width : Int
  URL : GoString
deriving DecidableEq, Repr

/-- The fields of `spotify.FullTrack` that `ParseSpotifyTrack` reads. -/
structure FullTrack where
  /-- The field `SimpleTrack.Name`. -/
  Name : GoString
  /-- The names of `SimpleTrack.Artists`, in credit order. -/
  Artists : List GoString
  /-- The field `SimpleTrack.Duration`, in milliseconds. -/
  Duration : Int
  /-- The field `Album.Name`. -/
  AlbumName : GoString
  /-- The field `Album.Images`. -/
  Images : List Image
deriving DecidableEq, Repr

/-- The type `Track`; `URL` is the field that `main.go` reads and writes as `track.URL`. -/
structure Track where
  Title : GoString
  Song : GoString
  Artist : GoString
  Album : GoString
  Featurings : List GoString
  Image : Image
  Duration : Int
  Filename : GoString
  FilenameTemp : GoString
  FilenameExt : GoString
  SearchPattern : GoString
  SongType : Nat
  Local : Bool
  URL : GoString
deriving DecidableEq, Repr

/-- Modelled from the spec: `MakeRange`, which is defined outside the files at hand; the
years "between 1950 and 2050". -/
def MakeRange (min max : Nat) : List Nat :=
  List.range' min (max + 1 - min)

/-- The alias list `SeemsType` builds for a song type. -/
def songTypeAliases (song_type : Nat) : List GoString :=
  if song_type = SongTypeLive then
    ["@".toList, "live".toList, "perform".toList, "tour".toList] ++ (MakeRange 1950 2050).map Itoa
  else if song_type = SongTypeCover then ["cover".toList, "vs".toList]
  else if song_type = SongTypeRemix then ["remix".toList, "radio edit".toList]
  else if song_type = SongTypeAcoustic then ["acoustic".toList]
  else if song_type = SongTypeKaraoke then ["karaoke".toList]
  else []

/-- One round of the alias loop of `SeemsType`. -/
def aliasMatches (env : Env) (sequence song_type_alias : GoString) : Bool :=
  let sequence_tmp :=
    if len song_type_alias = 1 then ToLower env sequence
    else sanitizeName env (ToLower env sequence)
  let song_type_alias :=
    if len (sanitizeName env (ToLower env song_type_alias)) = len song_type_alias then
      sanitizeName env (ToLower env song_type_alias)
    else song_type_alias
  Contains sequence_tmp song_type_alias

/-- The function `SeemsType`. -/
def SeemsType (env : Env) (sequence : GoString) (song_type : Nat) : Bool :=
  (songTypeAliases song_type).any (aliasMatches env sequence)

/-- The values `song_type` takes in `for song_type := range []int{SongTypeLive, ...}`:
a one-variable `range` clause yields the indices of the slice. -/
def songTypeLoop : List Nat :=
  List.range [SongTypeLive, SongTypeCover, SongTypeRemix, SongTypeAcoustic, SongTypeKaraoke].length

/-- One item of the loop of `Track.SeemsByWordMatch`. -/
def wordMatchItem (env : Env) (sequence track_item : GoString) : Bool :=
  let track_item := ToLower env track_item
  let track_item :=
    if len track_item > 7 && HasPrefix track_item "cast of".toList then
      Replace track_item "cast of".toList []
    else if len track_item > 5 && HasPrefix track_item.reverse " cast".toList.reverse then
      Replace track_item "cast".toList []
    else track_item
  let track_item := Replace track_item " & ".toList " and ".toList
  let track_item :=
    if Contains track_item " and ".toList then SplitFirst " and ".toList track_item
    else track_item
  let track_item := TrimSpace track_item
  let track_item := sanitizeName env track_item
  Contains sequence track_item

/-- The method `Track.SeemsByWordMatch`. -/
def Track.SeemsByWordMatch (env : Env) (track : Track) (sequence : GoString) : Bool :=
  let sequence := sanitizeName env (ToLower env sequence)
  ([track.Song, track.Artist] ++ track.Featurings).all (wordMatchItem env sequence)

/-- The method `Track.Seems`. -/
def Track.Seems (env : Env) (track : Track) (sequence : GoString) : Bool :=
  if !track.SeemsByWordMatch env sequence ||
      Contains (ToLower env sequence) "full album".toList then
    false
  else
    songTypeLoop.all (fun song_type =>
      !(SeemsType env sequence song_type && track.SongType != song_type))

/-- The classification loop of `ParseSpotifyTrack`: every matching round overwrites the
type assigned so far. -/
def classify (env : Env) (title : GoString) : Nat :=
  songTypeLoop.foldl
    (fun assigned song_type => if SeemsType env title song_type then song_type else assigned)
    SongTypeAlbum

/-- The title clean-up of `ParseSpotifyTrack`: cut at the first `" - "`, cut at `" live "`
when present, trim. -/
def cleanTitle (title : GoString) : GoString :=
  let title := SplitFirst " - ".toList title
  let title := if Contains title " live ".toList then SplitFirst " live ".toList title else title
  TrimSpace title

/-- The string `track_featurings` that `ParseSpotifyTrack` synthesizes. -/
def featuringSuffix (featurings : List GoString) : GoString :=
  if featurings.length > 1 then
    "(ft. ".toList ++ Join (featurings.take (featurings.length - 1)) ", ".toList ++
      " and ".toList ++ featurings.getLastD [] ++ ")".toList
  else "(ft. ".toList ++ featurings.headD [] ++ ")".toList

/-- The title after the featuring step of `ParseSpotifyTrack`, from the cleaned title. -/
def featuredTitle (env : Env) (title : GoString) (featurings : List GoString) : GoString :=
  if featurings.length > 0 then
    if Contains (ToLower env title) "feat. ".toList || Contains (ToLower env title) "ft. ".toList then
      Replace title "feat. ".toList "ft. ".toList
    else title ++ " ".toList ++ featuringSuffix featurings
  else title

/-- The symbols `ParseSpotifyTrack` strips from the file name. -/
def pathSymbols : List GoString :=
  ["/".toList, "\\".toList, ".".toList, "?".toList, "<".toList, ">".toList, ":".toList, "*".toList]

/-- The file name `ParseSpotifyTrack` derives from artist and final title. -/
def makeFilename (env : Env) (artist title : GoString) : GoString :=
  let filename := artist ++ " - ".toList ++ title
  let filename := pathSymbols.foldl (fun filename symbol => Replace filename symbol []) filename
  let filename := Replace filename "  ".toList " ".toList
  let filename := Accents env filename
  TrimSpace filename

/-- The function `ParseSpotifyTrack`.  The result is `none` exactly when the Go code
panics: `Artists[0]` or `Images[0]` on an empty list, `FilenameTemp[1:]` on an empty string
(the output of `sanitize.Name` is ASCII, so dropping one byte drops one rune). -/
def ParseSpotifyTrack (env : Env) (spotify_track : FullTrack) : Option Track :=
  match spotify_track.Artists, spotify_track.Images with
  | [], _ => none
  | _ :: _, [] => none
  | artist :: others, image :: _ =>
    let featurings := if spotify_track.Artists.length > 1 then others else []
    let songType := classify env spotify_track.Name
    let title := featuredTitle env (cleanTitle spotify_track.Name) featurings
    let song := if featurings.length > 0 then SplitFirst " (ft. ".toList title else title
    let album := Replace spotify_track.AlbumName "[".toList "(".toList
    let album := Replace album "]".toList ")".toList
    let album := Replace album "\x7b".toList "(".toList
    let album := Replace album "\x7d".toList ")".toList
    let filename := makeFilename env artist title
    let filenameTemp := sanitizeName env (".".toList ++ filename)
    match filenameTemp with
    | [] => none
    | _ :: rest =>
      some {
        Title := title
        Song := song
        Artist := artist
        Album := album
        Featurings := featurings
        Image := image
        Duration := spotify_track.Duration.tdiv 1000
        Filename := filename
        FilenameTemp := filenameTemp
        FilenameExt := env.DEFAULT_EXTENSION
        SearchPattern := Replace rest "-".toList " ".toList
        SongType := songType
        Local := env.fileExists (filename ++ env.DEFAULT_EXTENSION)
        URL := [] }

/-- The method `Track.FilenameFinal`. -/
def Track.FilenameFinal (track : Track) : GoString :=
  track.Filename ++ track.FilenameExt

/-- The method `Track.FilenameTemporary`. -/
def Track.FilenameTemporary (track : Track) : GoString :=
  track.FilenameTemp ++ track.FilenameExt

/-! ## The main loop of `main/main.go` -/

/-- The command-line flags the main loop reads. -/
structure Flags where
  replace_local : Bool
  flush_metadata : Bool
  disable_normalization : Bool
  debug : Bool
  simulate : Bool
deriving DecidableEq, Repr

/-- The result of `FindTrack`, as far as the main loop uses it. -/
structure YouTubeTrack where
  URL : GoString
deriving DecidableEq, Repr

/-- The candidate source (`youtube_client`, defined outside the files at hand): what a
search returns, and the error of a download if there is one. -/
structure Source where
  FindTrack : Track → Except GoString YouTubeTrack
  Download : YouTubeTrack → Option GoString

/-- The operations the main goroutine issues, in program order. -/
inductive Op where
  /-- The call `logger.Log`. -/
  | log (message : GoString)
  /-- The call `logger.Warn`. -/
  | warn (message : GoString)
  /-- The call `youtube_client.FindTrack`. -/
  | findTrack (track : Track)
  /-- The call `os.Remove`. -/
  | remove (path : GoString)
  /-- The call `youtube_track.Download`. -/
  | download (url : GoString)
  /-- The call `os.Rename`. -/
  | rename (oldpath newpath : GoString)
  /-- The pair `wait_group.Add(1); go ParallelSongProcess(track, &wait_group)`; `task` is
  the index of the loop round that dispatches it. -/
  | spawn (task : Nat) (track : Track)
  /-- The call `wait_group.Wait()`. -/
  | wait
deriving DecidableEq, Repr

/-- What one round of the loop (or the whole run) leaves behind: the operations issued and
the tracks appended to `tracks_failed`. -/
structure Outcome where
  ops : List Op
  tracks_failed : List Track
deriving DecidableEq, Repr

/-- The method `Tracks.CountOnline`. -/
def CountOnline (tracks : List Track) : Nat :=
  (tracks.filter (fun track => !track.Local)).length

/-- The method `Tracks.CountOffline`. -/
def CountOffline (tracks : List Track) : Nat :=
  tracks.length - CountOnline tracks

/-- Lines 133 to 147 of `main.go`: the skip test and the commit sequence around the
dispatch of `ParallelSongProcess`. -/
def commitOps (fl : Flags) (track_index : Nat) (track : Track) : List Op :=
  if track.Local && !fl.flush_metadata && !fl.replace_local then []
  else
    [Op.rename track.FilenameFinal track.FilenameTemporary, Op.spawn track_index track] ++
      (if fl.debug then [Op.wait] else []) ++
      [Op.rename track.FilenameTemporary track.FilenameFinal]

/-- Lines 105 to 131 of `main.go`, entered when the track is searched: the operations, the
tracks appended to `tracks_failed`, and the copy of the track the round goes on with
(`none` after a `continue`). -/
def searchOps (fl : Flags) (src : Source) (track : Track) : List Op × List Track × Option Track :=
  let search := Op.findTrack track
  match src.FindTrack track with
  | .error err =>
    ([search,
      Op.warn ("Something went wrong while searching for \"".toList ++ track.Filename ++
        "\" track: ".toList ++ err ++ ".".toList)], [], none)
  | .ok youtube_track =>
    if fl.simulate then
      ([search,
        Op.log ("I would like to download \"".toList ++ youtube_track.URL ++ "\" for \"".toList ++
          track.Filename ++ "\" track, but I'm just simulating.".toList)], [], none)
    else if fl.replace_local && track.URL == youtube_track.URL then
      ([search,
        Op.log ("Track \"".toList ++ track.Filename ++
          "\" is still the best result I can find.".toList)], [], none)
    else
      let removal := if track.Local then [Op.remove track.FilenameFinal] else []
      let track := if track.Local then { track with Local := false } else track
      match src.Download youtube_track with
      | some err =>
        ([search] ++ removal ++
          [Op.download youtube_track.URL,
           Op.warn ("Something went wrong downloading \"".toList ++ track.Filename ++
             "\": ".toList ++ err ++ ".".toList)], [track], none)
      | none =>
        ([search] ++ removal ++ [Op.download youtube_track.URL], [],
          some { track with URL := youtube_track.URL })

/-- The progress line logged at the start of a round (line 104). -/
def progressLine (total track_index : Nat) (track : Track) : GoString :=
  Itoa (track_index + 1) ++ "/".toList ++ Itoa total ++ ": \"".toList ++ track.Filename ++
    "\"".toList

/-- One round of the loop `for track_index, track := range tracks` of `main`. -/
def iteration (fl : Flags) (src : Source) (total track_index : Nat) (track : Track) : Outcome :=
  let progress := Op.log (progressLine total track_index track)
  if !track.Local || fl.replace_local then
    match searchOps fl src track with
    | (ops, failed, none) => { ops := progress :: ops, tracks_failed := failed }
    | (ops, failed, some track) =>
      { ops := progress :: ops ++ commitOps fl track_index track, tracks_failed := failed }
  else
    { ops := progress :: commitOps fl track_index track, tracks_failed := [] }

/-- The loop of `main` from round `track_index` on. -/
def loopFrom (fl : Flags) (src : Source) (total : Nat) : Nat → List Track → Outcome
  | _, [] => { ops := [], tracks_failed := [] }
  | track_index, track :: rest =>
    let first := iteration fl src total track_index track
    let others := loopFrom fl src total (track_index + 1) rest
    { ops := first.ops ++ others.ops, tracks_failed := first.tracks_failed ++ others.tracks_failed }

/-- The end-of-run report of `main` (lines 151 to 158). -/
def report (tracks_failed : List Track) : List Op :=
  if tracks_failed.length > 0 then
    Op.log ("Synchronization partially completed, ".toList ++ Itoa tracks_failed.length ++
      " tracks failed to synchronize:".toList) ::
      tracks_failed.map (fun track => Op.log (" - \"".toList ++ track.Filename ++ "\"".toList))
  else [Op.log "Synchronization completed.".toList]

/-- The function `main` from line 97 on, for the parsed track list; `tracks_failed` starts
empty. -/
def mainSync (fl : Flags) (src : Source) (tracks : List Track) : Outcome :=
  if tracks.length > 0 then
    let header :=
      if fl.replace_local then Op.log (Itoa tracks.length ++ " missing songs.".toList)
      else Op.log (Itoa (CountOnline tracks) ++ " missing songs, ".toList ++
        Itoa (CountOffline tracks) ++ " ignored.".toList)
    let body := loopFrom fl src tracks.length 0 tracks
    { ops := header :: body.ops ++ [Op.wait] ++ report body.tracks_failed ++ [Op.wait],
      tracks_failed := body.tracks_failed }
  else
    { ops := [Op.log "No song needs to be downloaded.".toList, Op.wait], tracks_failed := [] }

/-! ## The main goroutine running beside its post-processing tasks -/

/-- What an observer sees: an operation of the main goroutine, with the tasks outstanding
at the moment it is issued, or the completion of a task (its deferred `wg.Done()`). -/
inductive Label where
  | issue (op : Op) (outstanding : List Nat)
  | done (task : Nat)
deriving DecidableEq, Repr

/-- State of the process: operations the main goroutine has still to issue, tasks
dispatched and not yet completed (the wait group), and what happened so far. -/
structure Sys where
  pending : List Op
  running : List Nat
  trace : List Label
deriving DecidableEq, Repr

/-- A scheduling choice: the main goroutine moves, or an outstanding task completes. -/
inductive Move where
  | main
  | finish (task : Nat)
deriving DecidableEq, Repr

/-- One scheduling step; `none` when the chosen move is not enabled (nothing left to
issue, `wait_group.Wait()` with tasks outstanding, or a task that is not running). -/
def Sys.step (s : Sys) : Move → Option Sys
  | Move.main =>
    match s.pending with
    | [] => none
    | Op.wait :: rest =>
      if s.running = [] then
        some { s with pending := rest, trace := s.trace ++ [Label.issue Op.wait s.running] }
      else none
    | Op.spawn task track :: rest =>
      some { pending := rest, running := s.running ++ [task],
             trace := s.trace ++ [Label.issue (Op.spawn task track) s.running] }
    | op :: rest =>
      some { s with pending := rest, trace := s.trace ++ [Label.issue op s.running] }
  | Move.finish task =>
    if task ∈ s.running then
      some { s with running := s.running.erase task, trace := s.trace ++ [Label.done task] }
    else none

/-- A whole schedule, move by move. -/
def Sys.run (s : Sys) : List Move → Option Sys
  | [] => some s
  | m :: ms =>
    match s.step m with
    | none => none
    | some next => next.run ms

/-- The process as the main loop starts. -/
def Sys.init (ops : List Op) : Sys :=
  { pending := ops, running := [], trace := [] }

/-! ## The featuring list in the words of the specification -/

/-- The transliterations of the `sanitize` table consist of ASCII letters and digits. -/
def Env.PlainAccents (env : Env) : Prop :=
  ∀ c v, env.transliterations c = some v → ∀ x ∈ v, x.isAlphanum = true

/-- The tables are as in the Go runtime and in `sanitize`: transliterations consist of ASCII
letters and digits, no ASCII rune has a transliteration, and a rune above ASCII whose lower
case is ASCII lower-cases to a letter or digit. -/
def Env.Plain (env : Env) : Prop :=
  env.PlainAccents ∧
  (∀ c : Char, c.toNat ≤ 127 → env.transliterations c = none) ∧
  (∀ c : Char, 127 < c.toNat → (env.lowerRune c).toNat ≤ 127 →
    (env.lowerRune c).isAlphanum = true)

/-! ## Predicates used to state the commit protocol -/

/-- A list of operations in which every dispatch sits inside its commit sequence. -/
def Framed (debug : Bool) (ops : List Op) : Prop :=
  ∀ pre task track post, ops = pre ++ Op.spawn task track :: post →
    (∃ pre', pre = pre' ++ [Op.rename track.FilenameFinal track.FilenameTemporary]) ∧
    ∃ post', post = (if debug then [Op.wait] else []) ++
      Op.rename track.FilenameTemporary track.FilenameFinal :: post'

/-- What holds of every state reachable in debug mode from the program `prog`. -/
def Inv (prog : List Op) (s : Sys) : Prop :=
  (∃ pre, prog = pre ++ s.pending) ∧
  (s.running = [] ∨ ∃ rest, s.pending = Op.wait :: rest) ∧
  (∀ task track r, Label.issue (Op.spawn task track) r ∈ s.trace →
    task ∈ s.running ∨ Label.done task ∈ s.trace) ∧
  (∀ pre a b r post, s.trace = pre ++ Label.issue (Op.rename a b) r :: post →
    r = [] ∧ ∀ task track r', Label.issue (Op.spawn task track) r' ∈ pre → Label.done task ∈ pre)

/-! ## Concrete data used to evaluate the definitions -/

/-- An environment with a one-entry transliteration table and no files on disk. -/
def exampleEnv : Env :=
  { lowerRune := fun c => c
    transliterations := fun c => if c = 'é' then some ['e'] else none
    DEFAULT_EXTENSION := ".mp3".toList
    fileExists := fun _ => false }

/-- A studio record of "One More Time" by "Daft Punk". -/
def studioTrack : Track :=
  { Title := "One More Time".toList
    Song := "One More Time".toList
    Artist := "Daft Punk".toList
    Album := "Discovery".toList
    Featurings := []
    Image := { Height := 640, Width := 640, URL := "https://i.scdn.co/image/1".toList }
    Duration := 320
    Filename := "Daft Punk - One More Time".toList
    FilenameTemp := ".daft-punk-one-more-time".toList
    FilenameExt := ".mp3".toList
    SearchPattern := "daft punk one more time".toList
    SongType := SongTypeAlbum
    Local := false
    URL := [] }

/-- The same record, already on disk. -/
def localTrack : Track :=
  { studioTrack with Local := true }

/-- No flag set. -/
def noFlags : Flags :=
  { replace_local := false, flush_metadata := false, disable_normalization := false,
    debug := false, simulate := false }

/-- Only the debug flag set. -/
def debugFlags : Flags :=
  { noFlags with debug := true }

/-- A candidate source that finds a result for every track and downloads it. -/
def goodSource : Source :=
  { FindTrack := fun _ => .ok { URL := "https://youtu.be/FGBhQbmPwH8".toList }
    Download := fun _ => none }

/-- A candidate source whose search finds no acceptable result. -/
def emptySource : Source :=
  { FindTrack := fun _ => .error "no result".toList
    Download := fun _ => none }

/-- A candidate source that finds a result but fails to download it. -/
def brokenSource : Source :=
  { FindTrack := fun _ => .ok { URL := "https://youtu.be/FGBhQbmPwH8".toList }
    Download := fun _ => some "exit status 1".toList }

/-- The main goroutine issues its first seven operations (up to the rename back) before
the task completes. -/
def eagerSchedule : List Move :=
  List.replicate 7 Move.main

/-- The main goroutine runs up to the dispatch, the task completes, the main goroutine
goes on through `wait_group.Wait()` and the rename back. -/
def patientSchedule : List Move :=
  List.replicate 6 Move.main ++ [Move.finish 0, Move.main, Move.main]

/-- A remote record with the given title and artists. -/
def exampleRecord (title : String) (artists : List String) : FullTrack :=
  { Name := title.toList
    Artists := artists.map String.toList
    Duration := 320357
    AlbumName := "Discovery".toList
    Images := [{ Height := 640, Width := 640, URL := "https://i.scdn.co/image/1".toList }] }

/-- A record without artwork. -/
def bareRecord : FullTrack :=
  { exampleRecord "One More Time" ["Daft Punk"] with Images := [] }

/-! ## Candidate matcher -/

/-- A text rejected by one of the rounds of the variant loop is rejected by `Seems`. -/
theorem seems_false_of_round (env : Env) (track : Track) (sequence : GoString) (song_type : Nat)
    (hloop : song_type ∈ songTypeLoop)
    (hm : SeemsType env sequence song_type = true) (hne : track.SongType ≠ song_type) :
    track.Seems env sequence = false := by
  unfold Track.Seems
  split
  · rfl
  · rw [List.all_eq_false]
    exact ⟨song_type, hloop, by simp [hm, hne]⟩

/-- C1, evaluated: the text "Daft Punk - One More Time (Karaoke)" matches the Karaoke alias
set, the record is a studio record, and `Track.Seems` nevertheless accepts the text: the
variant loop runs over the indices 0 to 4 and never tests Karaoke. -/
theorem seems_accepts_karaoke_for_studio :
    SeemsType exampleEnv "Daft Punk - One More Time (Karaoke)".toList SongTypeKaraoke = true ∧
    studioTrack.SongType = SongTypeAlbum ∧
    studioTrack.Seems exampleEnv "Daft Punk - One More Time (Karaoke)".toList = true := by
  decide

/-- C2: a text whose lowercased form contains "full album" is rejected by `Track.Seems`,
whatever the record is. -/
theorem seems_rejects_full_album (env : Env) (track : Track) (sequence : GoString)
    (h : Contains (ToLower env sequence) "full album".toList = true) :
    track.Seems env sequence = false := by
  unfold Track.Seems
  rw [h]
  simp

/-- C2 at "Daft Punk - One More Time (Full Album)", a text that passes the word match. -/
theorem seems_rejects_full_album_witness :
    studioTrack.SeemsByWordMatch exampleEnv "Daft Punk - One More Time (Full Album)".toList = true ∧
    Contains (ToLower exampleEnv "Daft Punk - One More Time (Full Album)".toList)
      "full album".toList = true ∧
    studioTrack.Seems exampleEnv "Daft Punk - One More Time (Full Album)".toList = false :=
  ⟨by decide, by decide, seems_rejects_full_album _ _ _ (by decide)⟩

/-! ## Classification of the variant -/

/-- The classification loop, unrolled: round 0 tests `SongTypeAlbum`, whose alias list is
empty, rounds 1 to 4 test Live, Cover, Remix, Acoustic, and a later match overwrites an
earlier one. -/
theorem classify_eq (env : Env) (title : GoString) :
    classify env title =
      if SeemsType env title SongTypeAcoustic then SongTypeAcoustic
      else if SeemsType env title SongTypeRemix then SongTypeRemix
      else if SeemsType env title SongTypeCover then SongTypeCover
      else if SeemsType env title SongTypeLive then SongTypeLive
      else SongTypeAlbum := by
  have h0 : SeemsType env title 0 = false := by
    simp [SeemsType, songTypeAliases, SongTypeLive, SongTypeCover, SongTypeRemix,
      SongTypeAcoustic, SongTypeKaraoke]
  simp only [classify, songTypeLoop, List.length, List.range_succ_eq_map, List.range_zero,
    List.map, List.foldl, SongTypeAcoustic, SongTypeRemix, SongTypeCover, SongTypeLive,
    SongTypeAlbum, h0]
  simp

/-- The `SongType` of a parsed record is what the classification loop yields on the raw
title. -/
theorem parse_songType (env : Env) (ft : FullTrack) (t : Track)
    (h : ParseSpotifyTrack env ft = some t) : t.SongType = classify env ft.Name := by
  unfold ParseSpotifyTrack at h
  split at h
  · simp at h
  · simp at h
  · simp only at h
    split at h
    · simp at h
    · simp at h
      rw [← h]

/-- C3 as stated fails: the raw title "Live Remix" matches the Live alias set, the first
in the order, and `ParseSpotifyTrack` assigns Remix. -/
theorem parse_songtype_not_first_match :
    SeemsType exampleEnv (exampleRecord "Live Remix" ["Daft Punk"]).Name SongTypeLive = true ∧
    (ParseSpotifyTrack exampleEnv (exampleRecord "Live Remix" ["Daft Punk"])).map
      (fun t => t.SongType) = some SongTypeRemix := by
  decide

/-- C3, amended: for a raw title that does not match the Karaoke alias set, the `SongType`
assigned by `ParseSpotifyTrack` is the last variant, in the order Live, Cover, Remix,
Acoustic, Karaoke, whose alias set matches the raw title, and Studio when none matches. -/
theorem parse_songtype_last_match (env : Env) (ft : FullTrack) (t : Track)
    (hparse : ParseSpotifyTrack env ft = some t)
    (hkaraoke : SeemsType env ft.Name SongTypeKaraoke = false) :
    t.SongType =
      if SeemsType env ft.Name SongTypeKaraoke then SongTypeKaraoke
      else if SeemsType env ft.Name SongTypeAcoustic then SongTypeAcoustic
      else if SeemsType env ft.Name SongTypeRemix then SongTypeRemix
      else if SeemsType env ft.Name SongTypeCover then SongTypeCover
      else if SeemsType env ft.Name SongTypeLive then SongTypeLive
      else SongTypeAlbum := by
  rw [parse_songType env ft t hparse, classify_eq, hkaraoke]
  simp

/-- C3, amended, at the raw title "One More Time - Radio Edit (Live)": Live and Remix match,
Karaoke does not, and the record is classified Remix. -/
theorem parse_songtype_last_match_witness :
    SeemsType exampleEnv "One More Time - Radio Edit (Live)".toList SongTypeLive = true ∧
    SeemsType exampleEnv "One More Time - Radio Edit (Live)".toList SongTypeRemix = true ∧
    ∃ t, ParseSpotifyTrack exampleEnv
        (exampleRecord "One More Time - Radio Edit (Live)" ["Daft Punk"]) = some t ∧
      t.SongType = SongTypeRemix :=
  ⟨by decide, by decide, _, rfl,
    (parse_songtype_last_match exampleEnv
      (exampleRecord "One More Time - Radio Edit (Live)" ["Daft Punk"]) _ rfl (by decide)).trans
      (by decide)⟩

/-! ## The main loop -/

/-- A searched track whose search fails leaves `tracks_failed` as it was. -/
theorem iteration_search_error (fl : Flags) (src : Source) (total track_index : Nat)
    (track : Track) (err : GoString)
    (hsearched : (!track.Local || fl.replace_local) = true)
    (herr : src.FindTrack track = .error err) :
    (iteration fl src total track_index track).tracks_failed = [] := by
  simp only [iteration, hsearched, searchOps, herr, if_true]

/-- C4, evaluated: for a one-track list whose track is searched and whose search returns an
error, the run ends with an empty failed list and the report "Synchronization completed.";
when instead the download fails, the track is in the failed list. -/
theorem search_failure_not_recorded :
    studioTrack.Local = false ∧
    emptySource.FindTrack studioTrack = .error "no result".toList ∧
    (mainSync noFlags emptySource [studioTrack]).tracks_failed = [] ∧
    Op.log "Synchronization completed.".toList ∈ (mainSync noFlags emptySource [studioTrack]).ops ∧
    (mainSync noFlags brokenSource [studioTrack]).tracks_failed = [studioTrack] :=
  ⟨rfl, rfl, by decide, by decide, by decide⟩

/-- One round on a local track without override flags only logs the progress line. -/
theorem iteration_local (fl : Flags) (src : Source) (total track_index : Nat) (track : Track)
    (hreplace : fl.replace_local = false) (hflush : fl.flush_metadata = false)
    (hlocal : track.Local = true) :
    iteration fl src total track_index track =
      { ops := [Op.log (progressLine total track_index track)], tracks_failed := [] } := by
  simp [iteration, commitOps, hreplace, hflush, hlocal]

/-- The loop over local tracks without override flags only logs. -/
theorem loopFrom_local (fl : Flags) (src : Source) (total : Nat)
    (hreplace : fl.replace_local = false) (hflush : fl.flush_metadata = false)
    (tracks : List Track) (hlocal : ∀ t ∈ tracks, t.Local = true) (track_index : Nat) :
    (loopFrom fl src total track_index tracks).tracks_failed = [] ∧
    ∀ op ∈ (loopFrom fl src total track_index tracks).ops, ∃ m, op = Op.log m := by
  induction tracks generalizing track_index with
  | nil => simp [loopFrom]
  | cons t rest ih =>
    have ht : t.Local = true := hlocal t (List.mem_cons_self _ _)
    have hrest := ih (fun x hx => hlocal x (List.mem_cons_of_mem _ hx)) (track_index + 1)
    simp only [loopFrom, iteration_local fl src total track_index t hreplace hflush ht]
    refine ⟨by simpa using hrest.1, ?_⟩
    intro op hop
    simp only [List.singleton_append, List.mem_cons] at hop
    rcases hop with rfl | hop
    · exact ⟨_, rfl⟩
    · exact hrest.2 op hop

/-- C5: without replace-local and flush-metadata, one round of the main loop on a local
track issues nothing but its progress line (no search, download, removal, rename or
dispatch) and appends nothing to `tracks_failed`; and a run over a list of local tracks
issues only log lines and waits, and ends with an empty failed list. -/
theorem local_tracks_untouched (fl : Flags) (src : Source)
    (hreplace : fl.replace_local = false) (hflush : fl.flush_metadata = false) :
    (∀ (total track_index : Nat) (track : Track), track.Local = true →
      iteration fl src total track_index track =
        { ops := [Op.log (progressLine total track_index track)], tracks_failed := [] }) ∧
    (∀ tracks : List Track, (∀ t ∈ tracks, t.Local = true) →
      (mainSync fl src tracks).tracks_failed = [] ∧
      ∀ op ∈ (mainSync fl src tracks).ops, (∃ m, op = Op.log m) ∨ op = Op.wait) := by
  refine ⟨fun total track_index track h =>
    iteration_local fl src total track_index track hreplace hflush h, ?_⟩
  intro tracks hlocal
  have hloop := loopFrom_local fl src tracks.length hreplace hflush tracks hlocal 0
  unfold mainSync
  split
  · refine ⟨hloop.1, ?_⟩
    intro op hop
    simp only [hloop.1, report, List.length_nil, gt_iff_lt, lt_self_iff_false, if_false,
      List.mem_cons, List.mem_append, List.mem_singleton, List.not_mem_nil, or_false] at hop
    rcases hop with (((h | hop) | rfl) | rfl) | rfl
    · rw [h]
      split
      · exact Or.inl ⟨_, rfl⟩
      · exact Or.inl ⟨_, rfl⟩
    · exact Or.inl (hloop.2 op hop)
    · exact Or.inr rfl
    · exact Or.inl ⟨_, rfl⟩
    · exact Or.inr rfl
  · refine ⟨rfl, ?_⟩
    intro op hop
    simp only [List.mem_cons, List.mem_singleton, List.not_mem_nil, or_false] at hop
    rcases hop with rfl | rfl
    · exact Or.inl ⟨_, rfl⟩
    · exact Or.inr rfl

/-- C5 on a folder that already holds both tracks of the list, with a source that would
find and download everything. -/
theorem local_tracks_untouched_witness :
    (mainSync noFlags goodSource [localTrack, localTrack]).tracks_failed = [] ∧
    ∀ op ∈ (mainSync noFlags goodSource [localTrack, localTrack]).ops,
      (∃ m, op = Op.log m) ∨ op = Op.wait :=
  (local_tracks_untouched noFlags goodSource rfl rfl).2 [localTrack, localTrack]
    (by decide)

/-! ## Commit protocol -/

theorem framed_of_no_spawn (debug : Bool) (ops : List Op)
    (h : ∀ task track, Op.spawn task track ∉ ops) : Framed debug ops := by
  intro pre task track post heq
  exact absurd (by rw [heq]; simp) (h task track)

/-- Framing is kept by concatenation. -/
theorem framed_append (debug : Bool) (l₁ l₂ : List Op) (h₁ : Framed debug l₁)
    (h₂ : Framed debug l₂) : Framed debug (l₁ ++ l₂) := by
  intro pre task track post heq
  rcases List.append_eq_append_iff.mp heq with ⟨a, rfl, ha⟩ | ⟨c, rfl, hc⟩
  · obtain ⟨⟨p, rfl⟩, q⟩ := h₂ a task track post ha
    exact ⟨⟨l₁ ++ p, by simp⟩, q⟩
  · cases c with
    | nil =>
      simp only [List.nil_append] at hc
      obtain ⟨⟨p, hp⟩, q⟩ := h₂ [] task track post hc.symm
      simp at hp
    | cons x c =>
      simp only [List.cons_append, List.cons.injEq] at hc
      obtain ⟨rfl, rfl⟩ := hc
      obtain ⟨hp, ⟨q, hq⟩⟩ := h₁ pre task track c rfl
      exact ⟨hp, ⟨q ++ l₂, by rw [hq]; simp⟩⟩

/-- The commit sequence of a round is framed. -/
theorem framed_commitOps (fl : Flags) (track_index : Nat) (track : Track) :
    Framed fl.debug (commitOps fl track_index track) := by
  intro pre task t post heq
  unfold commitOps at heq
  split at heq
  · simp at heq
  · cases hd : fl.debug <;> simp only [hd, if_true, if_false] at heq ⊢ <;>
    rcases pre with _ | ⟨p1, _ | ⟨p2, _ | ⟨p3, _ | ⟨p4, _ | ⟨p5, pre⟩⟩⟩⟩⟩ <;> simp at heq
    · obtain ⟨rfl, ⟨_, rfl⟩, rfl⟩ := heq
      exact ⟨⟨[], rfl⟩, ⟨[], rfl⟩⟩
    · obtain ⟨rfl, ⟨_, rfl⟩, rfl⟩ := heq
      exact ⟨⟨[], rfl⟩, ⟨[], rfl⟩⟩


/-- The search part of a round dispatches nothing. -/
theorem searchOps_no_spawn (fl : Flags) (src : Source) (track : Track) (task : Nat) (t : Track) :
    Op.spawn task t ∉ (searchOps fl src track).1 := by
  unfold searchOps
  split
  · simp
  · split
    · simp
    · split
      · simp
      · split <;> split <;> simp

/-- The operations of one round are framed. -/
theorem framed_iteration (fl : Flags) (src : Source) (total track_index : Nat) (track : Track) :
    Framed fl.debug (iteration fl src total track_index track).ops := by
  have hlog : ∀ m, Framed fl.debug [Op.log m] := fun m =>
    framed_of_no_spawn _ _ (by simp)
  unfold iteration
  split
  · have hs := searchOps_no_spawn fl src track
    split
    · rename_i ops failed heq
      rw [heq] at hs
      exact framed_append _ [_] _ (hlog _) (framed_of_no_spawn _ _ hs)
    · rename_i ops failed t heq
      rw [heq] at hs
      exact framed_append _ [_] _ (hlog _)
        (framed_append _ _ _ (framed_of_no_spawn _ _ hs) (framed_commitOps _ _ _))
  · exact framed_append _ [_] _ (hlog _) (framed_commitOps _ _ _)

/-- The operations of the loop are framed. -/
theorem framed_loopFrom (fl : Flags) (src : Source) (total : Nat) (tracks : List Track)
    (track_index : Nat) : Framed fl.debug (loopFrom fl src total track_index tracks).ops := by
  induction tracks generalizing track_index with
  | nil => exact framed_of_no_spawn _ _ (by simp [loopFrom])
  | cons t rest ih =>
    simp only [loopFrom]
    exact framed_append _ _ _ (framed_iteration _ _ _ _ _) (ih _)

/-- The end-of-run report dispatches nothing. -/
theorem report_no_spawn (failed : List Track) (task : Nat) (t : Track) :
    Op.spawn task t ∉ report failed := by
  unfold report
  split <;> simp

/-- The operations of a whole run are framed. -/
theorem framed_mainSync (fl : Flags) (src : Source) (tracks : List Track) :
    Framed fl.debug (mainSync fl src tracks).ops := by
  unfold mainSync
  split
  · simp only
    have h1 : ∀ op : Op, (∀ task t, op ≠ Op.spawn task t) → Framed fl.debug [op] := fun op h =>
      framed_of_no_spawn _ _ (by simpa using fun task t => (h task t).symm)
    refine framed_append _ [_] _ ?_
      (framed_append _ _ _ (framed_append _ _ _ (framed_append _ _ _ (framed_loopFrom _ _ _ _ _)
        (h1 _ (by simp))) (framed_of_no_spawn _ _ (report_no_spawn _))) (h1 _ (by simp)))
    split <;> exact h1 _ (by simp)
  · exact framed_of_no_spawn _ _ (by simp)


/-- The ways a list extended by one element splits around an element. -/
theorem split_snoc {α : Type} {l pre post : List α} {x y : α}
    (h : l ++ [x] = pre ++ y :: post) :
    (post = [] ∧ pre = l ∧ y = x) ∨ ∃ post', post = post' ++ [x] ∧ l = pre ++ y :: post' := by
  rcases List.append_eq_append_iff.mp h with ⟨a, rfl, ha⟩ | ⟨c, rfl, hc⟩
  · cases a with
    | nil =>
      simp only [List.nil_append, List.cons.injEq] at ha
      exact Or.inl ⟨ha.2.symm, by simp, ha.1.symm⟩
    | cons z a =>
      simp at ha
  · cases c with
    | nil =>
      simp only [List.nil_append, List.cons.injEq] at hc
      exact Or.inl ⟨hc.2, by simp, hc.1⟩
    | cons z c =>
      simp only [List.cons_append, List.cons.injEq] at hc
      obtain ⟨rfl, rfl⟩ := hc
      exact Or.inr ⟨c, rfl, rfl⟩

/-- What a move of the main goroutine does to the state. -/
theorem step_main_spec (s s' : Sys) (h : s.step Move.main = some s') :
    ∃ op rest, s.pending = op :: rest ∧ s'.pending = rest ∧
      s'.trace = s.trace ++ [Label.issue op s.running] ∧
      (op = Op.wait → s.running = []) ∧
      ((∃ task track, op = Op.spawn task track ∧ s'.running = s.running ++ [task]) ∨
        ((∀ task track, op ≠ Op.spawn task track) ∧ s'.running = s.running)) := by
  cases hp : s.pending with
  | nil => simp [Sys.step, hp] at h
  | cons op rest =>
    cases op
    case wait =>
      simp only [Sys.step, hp] at h
      split at h
      · rename_i hr
        simp only [Option.some.injEq] at h
        subst h
        exact ⟨_, _, rfl, rfl, rfl, fun _ => hr, Or.inr ⟨by simp, rfl⟩⟩
      · simp at h
    case spawn task track =>
      simp only [Sys.step, hp, Option.some.injEq] at h
      subst h
      exact ⟨_, _, rfl, rfl, rfl, by simp, Or.inl ⟨_, _, rfl, rfl⟩⟩
    all_goals
      simp only [Sys.step, hp, Option.some.injEq] at h
      subst h
      exact ⟨_, _, rfl, rfl, rfl, by simp, Or.inr ⟨by simp, rfl⟩⟩

/-- What the completion of a task does to the state. -/
theorem step_finish_spec (s s' : Sys) (task : Nat) (h : s.step (Move.finish task) = some s') :
    task ∈ s.running ∧ s'.pending = s.pending ∧ s'.running = s.running.erase task ∧
      s'.trace = s.trace ++ [Label.done task] := by
  simp only [Sys.step] at h
  split at h
  · rename_i hr
    simp only [Option.some.injEq] at h
    subst h
    exact ⟨hr, rfl, rfl, rfl⟩
  · simp at h

/-- The invariant holds as the main loop starts. -/
theorem inv_init (prog : List Op) : Inv prog (Sys.init prog) := by
  refine ⟨⟨[], rfl⟩, Or.inl rfl, ?_, ?_⟩
  · intro task track r h
    simp [Sys.init] at h
  · intro pre a b r post h
    simp [Sys.init] at h

/-- In debug mode the invariant is kept by every scheduling step. -/
theorem inv_step (prog : List Op) (hprog : Framed true prog) (s s' : Sys) (m : Move)
    (hinv : Inv prog s) (h : s.step m = some s') : Inv prog s' := by
  obtain ⟨⟨pre₀, hpre⟩, hwait, hspawn, hsplit⟩ := hinv
  cases m with
  | main =>
    obtain ⟨op, rest, hp, hp', ht', hw, hrun⟩ := step_main_spec s s' h
    have hquiet : (∀ task track, op ≠ Op.spawn task track) → s.running = [] := by
      intro hns
      rcases hwait with h0 | ⟨r, hr⟩
      · exact h0
      · rw [hp] at hr
        simp only [List.cons.injEq] at hr
        exact hw hr.1
    refine ⟨⟨pre₀ ++ [op], by rw [hpre, hp, hp']; simp⟩, ?_, ?_, ?_⟩
    · rcases hrun with ⟨task, track, rfl, _⟩ | ⟨hns, hr'⟩
      · right
        rw [hp] at hpre
        obtain ⟨_, post', hpost⟩ := hprog pre₀ task track rest hpre
        rw [hp', hpost]
        exact ⟨_, rfl⟩
      · left
        rw [hr']
        exact hquiet hns
    · intro task track r hmem
      rw [ht'] at hmem ⊢
      rcases List.mem_append.mp hmem with hold | hnew
      · rcases hspawn task track r hold with hr | hd
        · left
          rcases hrun with ⟨_, _, _, hr'⟩ | ⟨_, hr'⟩ <;> rw [hr']
          · exact List.mem_append_left _ hr
          · exact hr
        · exact Or.inr (List.mem_append_left _ hd)
      · simp only [List.mem_singleton, Label.issue.injEq] at hnew
        obtain ⟨rfl, _⟩ := hnew
        rcases hrun with ⟨task', track', hop, hr'⟩ | ⟨hns, _⟩
        · simp only [Op.spawn.injEq] at hop
          left
          rw [hr', hop.1]
          simp
        · exact absurd rfl (hns task track)
    · intro pre a b r post hsp
      rw [ht'] at hsp
      rcases split_snoc hsp with ⟨_, rfl, hlast⟩ | ⟨post', _, hold⟩
      · simp only [Label.issue.injEq] at hlast
        obtain ⟨rfl, rfl⟩ := hlast
        have hq := hquiet (by simp)
        refine ⟨hq, ?_⟩
        intro task track r' hmem
        rcases hspawn task track r' hmem with hr | hd
        · rw [hq] at hr
          simp at hr
        · exact hd
      · exact hsplit pre a b r post' hold
  | finish task =>
    obtain ⟨hr, hp', hr', ht'⟩ := step_finish_spec s s' task h
    refine ⟨⟨pre₀, by rw [hpre, hp']⟩, ?_, ?_, ?_⟩
    · rcases hwait with h0 | hw
      · rw [h0] at hr
        simp at hr
      · right
        rw [hp']
        exact hw
    · intro task' track r hmem
      rw [ht'] at hmem ⊢
      rcases List.mem_append.mp hmem with hold | hnew
      · rcases hspawn task' track r hold with hrun | hd
        · by_cases heq : task' = task
          · right
            rw [heq]
            simp
          · left
            rw [hr']
            exact (List.mem_erase_of_ne heq).mpr hrun
        · exact Or.inr (List.mem_append_left _ hd)
      · simp at hnew
    · intro pre a b r post hsp
      rw [ht'] at hsp
      rcases split_snoc hsp with ⟨_, _, hlast⟩ | ⟨post', _, hold⟩
      · simp at hlast
      · exact hsplit pre a b r post' hold

/-- In debug mode the invariant is kept by every schedule. -/
theorem inv_run (prog : List Op) (hprog : Framed true prog) (sched : List Move) (s s' : Sys)
    (hinv : Inv prog s) (h : s.run sched = some s') : Inv prog s' := by
  induction sched generalizing s with
  | nil =>
    simp only [Sys.run, Option.some.injEq] at h
    exact h ▸ hinv
  | cons m ms ih =>
    simp only [Sys.run] at h
    cases hstep : s.step m with
    | none => simp [hstep] at h
    | some next =>
      rw [hstep] at h
      exact ih next (inv_step prog hprog s next m hinv hstep) h

/-- C6, evaluated: without the debug flag, in the run of a one-track list where the main
goroutine is scheduled seven times in a row, the last three operations are the rename to
the temporary name, the dispatch of task 0 and the rename back to the final name, the last
one issued while task 0 is outstanding; with the debug flag the same schedule is not
enabled, the seventh move being `wait_group.Wait()` with task 0 outstanding. -/
theorem rename_back_while_task_outstanding :
    ((Sys.init (mainSync noFlags goodSource [studioTrack]).ops).run eagerSchedule).map
        (fun s => s.trace.drop 4) =
      some [Label.issue (Op.rename studioTrack.FilenameFinal studioTrack.FilenameTemporary) [],
            Label.issue (Op.spawn 0
              { studioTrack with URL := "https://youtu.be/FGBhQbmPwH8".toList }) [],
            Label.issue (Op.rename studioTrack.FilenameTemporary studioTrack.FilenameFinal) [0]] ∧
    (Sys.init (mainSync debugFlags goodSource [studioTrack]).ops).run eagerSchedule = none := by
  decide

/-- The commit sequence in program order, and the debug path: in the operations of a run,
every dispatch of post-processing is immediately preceded by the rename of the final file
to the temporary name and followed (after `wait_group.Wait()` when the debug flag is set) by
the rename back; and when the debug flag is set, under every schedule a rename is issued
only while no task is outstanding, and every task dispatched before it has completed
before it. -/
theorem commit_protocol (fl : Flags) (src : Source) (tracks : List Track) :
    (∀ pre task track post, (mainSync fl src tracks).ops = pre ++ Op.spawn task track :: post →
      (∃ pre', pre = pre' ++ [Op.rename track.FilenameFinal track.FilenameTemporary]) ∧
      ∃ post', post = (if fl.debug then [Op.wait] else []) ++
        Op.rename track.FilenameTemporary track.FilenameFinal :: post') ∧
    (fl.debug = true → ∀ sched s, (Sys.init (mainSync fl src tracks).ops).run sched = some s →
      ∀ pre a b r post, s.trace = pre ++ Label.issue (Op.rename a b) r :: post →
        r = [] ∧
        ∀ task track r', Label.issue (Op.spawn task track) r' ∈ pre → Label.done task ∈ pre) := by
  refine ⟨framed_mainSync fl src tracks, ?_⟩
  intro hdebug sched s hrun
  have hframed : Framed true (mainSync fl src tracks).ops := hdebug ▸ framed_mainSync fl src tracks
  exact (inv_run _ hframed sched _ s (inv_init _) hrun).2.2.2

/-- The debug path on a one-track list: the run in which the task completes before
`wait_group.Wait()` ends with the rename back, and the completion of task 0 comes before
it. -/
theorem commit_protocol_witness :
    debugFlags.debug = true ∧
    ((Sys.init (mainSync debugFlags goodSource [studioTrack]).ops).run patientSchedule).map
        (fun s => s.trace.getLast?) =
      some (some (Label.issue
        (Op.rename studioTrack.FilenameTemporary studioTrack.FilenameFinal) [])) ∧
    Label.done 0 ∈
      (((Sys.init (mainSync debugFlags goodSource [studioTrack]).ops).run patientSchedule).getD
        (Sys.init [])).trace.dropLast := by
  refine ⟨rfl, by decide, ?_⟩
  exact ((commit_protocol debugFlags goodSource [studioTrack]).2 rfl patientSchedule
    (((Sys.init (mainSync debugFlags goodSource [studioTrack]).ops).run patientSchedule).getD
      (Sys.init [])) (by decide) _
    studioTrack.FilenameTemporary studioTrack.FilenameFinal [] [] (by decide)).2 0
    { studioTrack with URL := "https://youtu.be/FGBhQbmPwH8".toList } [] (by decide)

/-! ## Strings -/

/-- `HasPrefix` is the prefix relation. -/
theorem hasPrefix_iff (s p : GoString) : HasPrefix s p = true ↔ ∃ b, s = p ++ b := by
  induction p generalizing s with
  | nil => simp [HasPrefix]
  | cons d p ih =>
    cases s with
    | nil => simp [HasPrefix]
    | cons c s =>
      simp only [HasPrefix, Bool.and_eq_true, beq_iff_eq, ih, List.cons_append, List.cons.injEq]
      constructor
      · rintro ⟨rfl, b, rfl⟩
        exact ⟨b, rfl, rfl⟩
      · rintro ⟨b, rfl, rfl⟩
        exact ⟨rfl, b, rfl⟩

/-- `Contains` is the infix relation. -/
theorem contains_iff (s sub : GoString) : Contains s sub = true ↔ ∃ a b, s = a ++ sub ++ b := by
  induction s with
  | nil =>
    simp only [Contains, hasPrefix_iff]
    constructor
    · rintro ⟨b, h⟩
      exact ⟨[], b, by simpa using h⟩
    · rintro ⟨a, b, h⟩
      have h' := h.symm
      simp only [List.append_eq_nil, List.append_assoc] at h'
      exact ⟨[], by simp [h'.2.1]⟩
  | cons c s ih =>
    simp only [Contains, Bool.or_eq_true, hasPrefix_iff, ih]
    constructor
    · rintro (⟨b, h⟩ | ⟨a, b, h⟩)
      · exact ⟨[], b, by simpa using h⟩
      · exact ⟨c :: a, b, by simp [h]⟩
    · rintro ⟨a, b, h⟩
      cases a with
      | nil => exact Or.inl ⟨b, by simpa using h⟩
      | cons x a =>
        simp only [List.cons_append, List.cons.injEq] at h
        exact Or.inr ⟨a, b, h.2⟩

/-- Containing a one-rune string is membership of the rune. -/
theorem contains_singleton (s : GoString) (c : Char) : Contains s [c] = true ↔ c ∈ s := by
  rw [contains_iff]
  constructor
  · rintro ⟨a, b, rfl⟩
    simp
  · intro h
    obtain ⟨a, b, rfl⟩ := List.append_of_mem h
    exact ⟨a, b, by simp⟩

/-- A rune of a replacement result comes from the input or from the new text. -/
theorem mem_replaceAux (old new : GoString) (c : Char) (s : GoString) (k : Nat)
    (h : c ∈ replaceAux old new k s) : c ∈ s ∨ c ∈ new := by
  induction s generalizing k with
  | nil => simp [replaceAux] at h
  | cons x s ih =>
    cases k with
    | succ k =>
      simp only [replaceAux] at h
      rcases ih k h with h | h
      · exact Or.inl (List.mem_cons_of_mem _ h)
      · exact Or.inr h
    | zero =>
      simp only [replaceAux] at h
      split at h
      · rcases List.mem_append.mp h with h | h
        · exact Or.inr h
        · rcases ih _ h with h | h
          · exact Or.inl (List.mem_cons_of_mem _ h)
          · exact Or.inr h
      · rcases List.mem_cons.mp h with h | h
        · exact Or.inl (h ▸ List.mem_cons_self _ _)
        · rcases ih _ h with h | h
          · exact Or.inl (List.mem_cons_of_mem _ h)
          · exact Or.inr h

/-- A rune of `Replace s old new` comes from `s` or from `new`. -/
theorem mem_replace (s old new : GoString) (c : Char) (h : c ∈ Replace s old new) :
    c ∈ s ∨ c ∈ new :=
  mem_replaceAux old new c s 0 h

/-- Replacing a one-rune string by the empty string removes the rune. -/
theorem replace_strip (s : GoString) (x : Char) : Replace s [x] [] = s.filter (fun c => c != x) := by
  unfold Replace
  induction s with
  | nil => simp [replaceAux]
  | cons c s ih =>
    by_cases h : c = x
    · simp [replaceAux, HasPrefix, h, ih]
    · simp [replaceAux, HasPrefix, h, ih]

/-- A rune of `Accents s` comes from `s` or from a transliteration. -/
theorem mem_accents (env : Env) (s : GoString) (c : Char) (h : c ∈ Accents env s) :
    c ∈ s ∨ ∃ k v, env.transliterations k = some v ∧ c ∈ v := by
  induction s with
  | nil => simp [Accents] at h
  | cons x s ih =>
    simp only [Accents] at h
    split at h
    · rename_i v hv
      rcases List.mem_append.mp h with h | h
      · exact Or.inr ⟨x, v, hv, h⟩
      · rcases ih h with h | h
        · exact Or.inl (List.mem_cons_of_mem _ h)
        · exact Or.inr h
    · rcases List.mem_cons.mp h with h | h
      · exact Or.inl (h ▸ List.mem_cons_self _ _)
      · rcases ih h with h | h
        · exact Or.inl (List.mem_cons_of_mem _ h)
        · exact Or.inr h

/-- Trimming on the right is `List.rdropWhile`. -/
theorem trimRight_eq (p : Char → Bool) (s : GoString) : trimRight p s = s.rdropWhile p := rfl

/-- Trimming adds no rune. -/
theorem mem_trimBoth (p : Char → Bool) (s : GoString) (c : Char) (h : c ∈ trimBoth p s) :
    c ∈ s := by
  unfold trimBoth at h
  rw [trimRight_eq] at h
  exact (List.dropWhile_sublist p).subset ((List.rdropWhile_prefix p _).subset h)

/-- What a successful `ParseSpotifyTrack` returns. -/
theorem parse_some (env : Env) (ft : FullTrack) (t : Track)
    (h : ParseSpotifyTrack env ft = some t) :
    ∃ artist others image images, ft.Artists = artist :: others ∧ ft.Images = image :: images ∧
      t.Featurings = others ∧
      t.Title = featuredTitle env (cleanTitle ft.Name) others ∧
      t.Song = (if others.length > 0 then SplitFirst " (ft. ".toList t.Title else t.Title) ∧
      t.Filename = makeFilename env artist t.Title := by
  unfold ParseSpotifyTrack at h
  split at h
  · simp at h
  · simp at h
  · rename_i artist others image images hartists himages
    simp only at h
    split at h
    · simp at h
    · have hfeat : (if ft.Artists.length > 1 then others else []) = others := by
        rw [hartists]
        cases others <;> simp
      simp only [hfeat, Option.some.injEq] at h
      subst h
      exact ⟨artist, others, image, images, hartists, himages, rfl, rfl, rfl, rfl⟩

/-- A letter or digit is not a path symbol. -/
theorem isAlphanum_not_symbol (c : Char) (h : c.isAlphanum = true) :
    c ≠ '/' ∧ c ≠ '\\' ∧ c ≠ '.' ∧ c ≠ '?' ∧ c ≠ '<' ∧ c ≠ '>' ∧ c ≠ ':' ∧ c ≠ '*' := by
  refine ⟨?_, ?_, ?_, ?_, ?_, ?_, ?_, ?_⟩ <;> rintro rfl <;> revert h <;> decide

/-- `TrimSpace` adds no rune. -/
theorem mem_trimSpace (s : GoString) (c : Char) (h : c ∈ TrimSpace s) : c ∈ s :=
  mem_trimBoth _ s c h

/-- Stripping a list of one-rune symbols one after the other is a filter. -/
theorem foldl_strip (cs : List Char) (s : GoString) :
    (cs.map (fun x => [x])).foldl (fun filename symbol => Replace filename symbol []) s =
      s.filter (fun c => !cs.contains c) := by
  induction cs generalizing s with
  | nil => simp
  | cons x cs ih =>
    simp only [List.map, List.foldl, ih, replace_strip, List.filter_filter]
    congr 1
    funext c
    by_cases h : c = x
    · simp [h]
    · have h' : (x == c) = false := by simpa using fun e => h e.symm
      simp [h, h', List.contains_cons]

/-- The stripped symbols are one-rune strings. -/
theorem pathSymbols_eq :
    pathSymbols = ['/', '\\', '.', '?', '<', '>', ':', '*'].map (fun x => [x]) := by
  decide

/-- No rune of the derived file name is a path symbol. -/
theorem makeFilename_clean (env : Env) (henv : env.PlainAccents) (artist title : GoString)
    (c : Char) (h : c ∈ makeFilename env artist title) :
    ['/', '\\', '.', '?', '<', '>', ':', '*'].contains c = false := by
  unfold makeFilename at h
  rcases mem_accents env _ c (mem_trimSpace _ c h) with h | ⟨k, v, hk, hv⟩
  · rcases mem_replace _ _ _ c h with h | h
    · rw [pathSymbols_eq, foldl_strip, List.mem_filter] at h
      simpa using h.2
    · have hc : c = ' ' := by
        simpa [show " ".toList = [' '] from rfl] using h
      rw [hc]
      decide
  · have halnum := henv k v hk c hv
    rw [Bool.eq_false_iff]
    intro hc
    simp only [List.contains_eq_any_beq, List.any_cons, List.any_nil, Bool.or_false,
      Bool.or_eq_true, beq_iff_eq] at hc
    rcases hc with rfl | rfl | rfl | rfl | rfl | rfl | rfl | rfl <;> revert halnum <;> decide



/-- C8: the `Filename` of a parsed record contains none of the stripped path symbols, given
that the transliterations of accent folding are letters and digits. -/
theorem filename_has_no_path_symbol (env : Env) (henv : env.PlainAccents) (ft : FullTrack)
    (t : Track) (hparse : ParseSpotifyTrack env ft = some t) :
    ∀ symbol ∈ pathSymbols, Contains t.Filename symbol = false := by
  obtain ⟨artist, others, image, images, _, _, _, _, _, hfile⟩ := parse_some env ft t hparse
  have hclean := makeFilename_clean env henv artist t.Title
  rw [← hfile] at hclean
  intro symbol hsym
  rw [pathSymbols_eq, List.mem_map] at hsym
  obtain ⟨x, hx, rfl⟩ := hsym
  rw [Bool.eq_false_iff]
  intro hc
  have hmem := (contains_singleton t.Filename x).mp hc
  have := hclean x hmem
  have hin : ['/', '\\', '.', '?', '<', '>', ':', '*'].contains x = true :=
    List.elem_eq_true_of_mem hx
  rw [hin] at this
  exact Bool.noConfusion this

/-- The example table maps to letters only. -/
theorem exampleEnv_plainAccents : exampleEnv.PlainAccents := by
  intro c v h x hx
  simp only [exampleEnv] at h
  split at h
  · simp only [Option.some.injEq] at h
    subst h
    simp only [List.mem_singleton] at hx
    subst hx
    decide
  · simp at h

/-- C8 at the record "Who Is It? (Carry My Joy) - Edit: 1/2" by "Beyoncé" and "M.I.A.",
whose file name is "Beyonce - Who Is It (Carry My Joy) (ft MIA)". -/
theorem filename_has_no_path_symbol_witness :
    exampleEnv.PlainAccents ∧
    ∃ t, ParseSpotifyTrack exampleEnv
        (exampleRecord "Who Is It? (Carry My Joy) - Edit: 1/2" ["Beyoncé", "M.I.A."]) = some t ∧
      t.Filename = "Beyonce - Who Is It (Carry My Joy) (ft MIA)".toList ∧
      ∀ symbol ∈ pathSymbols, Contains t.Filename symbol = false :=
  ⟨exampleEnv_plainAccents, _, rfl, by decide,
    filename_has_no_path_symbol exampleEnv exampleEnv_plainAccents
      (exampleRecord "Who Is It? (Carry My Joy) - Edit: 1/2" ["Beyoncé", "M.I.A."]) _ rfl⟩


/-! ## Totality of `ParseSpotifyTrack` -/

/-- A property checked on the 128 ASCII code points holds of every ASCII rune. -/
theorem ascii_cases (P : Char → Prop) (h : ∀ n : Fin 128, P (Char.ofNat n)) (c : Char)
    (hc : c.toNat ≤ 127) : P c := by
  have := h ⟨c.toNat, by omega⟩
  simpa using this

/-- Among ASCII runes only the slash lower-cases to the slash. -/
theorem toLower_ascii_slash (c : Char) (hc : c.toNat ≤ 127) (h : c.toLower = '/') : c = '/' := by
  revert h
  refine ascii_cases (fun c => c.toLower = '/' → c = '/') ?_ c hc
  decide

/-- Only the slash lower-cases to the slash. -/
theorem toLowerRune_slash (env : Env) (henv : env.Plain) (c : Char)
    (h : toLowerRune env c = '/') : c = '/' := by
  unfold toLowerRune at h
  split at h
  · rename_i hc
    exact toLower_ascii_slash c hc h
  · rename_i hc
    have := henv.2.2 c (by omega) (by rw [h]; decide)
    rw [h] at this
    exact absurd this (by decide)

/-- Lower-casing introduces no slash. -/
theorem toLower_no_slash (env : Env) (henv : env.Plain) (s : GoString) (h : '/' ∉ s) :
    '/' ∉ ToLower env s := by
  intro hmem
  simp only [ToLower, List.mem_map] at hmem
  obtain ⟨c, hc, hlow⟩ := hmem
  exact h (toLowerRune_slash env henv c hlow ▸ hc)

/-- The base of a non-empty path without slash is the path itself. -/
theorem pathBase_of_no_slash (s : GoString) (hne : s ≠ []) (h : '/' ∉ s) : pathBase s = s := by
  have hall : ∀ x ∈ s, (x != '/') = true := by
    intro x hx
    simp only [bne_iff_ne, ne_eq]
    rintro rfl
    exact h hx
  have hq : trimRight (fun c => c == '/') s = s := by
    rw [trimRight_eq, List.rdropWhile_eq_self_iff]
    intro hl
    have := hall _ (List.getLast_mem hl)
    simpa using this
  unfold pathBase
  simp only [hne, if_false, hq]
  have he : (List.takeWhile (fun c => c != '/') s.reverse).reverse = s := by
    rw [List.takeWhile_eq_self_iff.mpr (fun x hx => hall x (List.mem_reverse.mp hx)),
      List.reverse_reverse]
  rw [he]
  simp [hne]

/-- `cleanString` keeps a leading dot. -/
theorem cleanString_dot (env : Env) (hdot : env.transliterations '.' = none) (s : GoString) :
    ∃ rest, cleanString env ('.' :: s) = '.' :: rest := by
  have htrim : ∃ r, trimBoth (fun c => c == ' ') ('.' :: s) = '.' :: r := by
    unfold trimBoth
    rw [show List.dropWhile (fun c => c == ' ') ('.' :: s) = '.' :: s from by
      simp [List.dropWhile_cons], trimRight_eq]
    have hpre := List.rdropWhile_prefix (fun c => c == ' ') (l := '.' :: s)
    have hne : List.rdropWhile (fun c => c == ' ') ('.' :: s) ≠ [] := by
      rw [Ne, List.rdropWhile_eq_nil_iff]
      intro hall
      have := hall '.' (List.mem_cons_self _ _)
      simp at this
    obtain ⟨b, hb⟩ := hpre
    cases hr : List.rdropWhile (fun c => c == ' ') ('.' :: s) with
    | nil => exact absurd hr hne
    | cons x r =>
      rw [hr] at hb
      simp only [List.cons_append, List.cons.injEq] at hb
      exact ⟨r, by rw [hb.1]⟩
  obtain ⟨r, hr⟩ := htrim
  unfold cleanString
  simp only [hr, Accents, hdot, List.map_cons]
  rw [show isSeparator '.' = false from by decide]
  simp only [Bool.false_eq_true, if_false]
  rw [List.filter_cons_of_pos (by decide)]
  simp only [collapseDashes]
  rw [if_neg (by simp)]
  exact ⟨_, rfl⟩

/-- `sanitize.Name` keeps the leading dot of a name without slash. -/
theorem sanitizeName_dot (env : Env) (henv : env.Plain) (s : GoString) (h : '/' ∉ s) :
    ∃ rest, sanitizeName env ('.' :: s) = '.' :: rest := by
  have hlow : ToLower env ('.' :: s) = '.' :: ToLower env s := by
    simp [ToLower, toLowerRune]
  have hns : '/' ∉ '.' :: ToLower env s := by
    intro hmem
    rcases List.mem_cons.mp hmem with h' | h'
    · exact absurd h' (by decide)
    · exact toLower_no_slash env henv s h h'
  unfold sanitizeName
  rw [hlow, pathBase_of_no_slash _ (by simp) hns]
  exact cleanString_dot env (henv.2.1 '.' (by decide)) _

/-- The derived file name holds no slash. -/
theorem makeFilename_no_slash (env : Env) (henv : env.Plain) (artist title : GoString) :
    '/' ∉ makeFilename env artist title := by
  intro h
  have := makeFilename_clean env henv.1 artist title '/' h
  exact absurd this (by decide)

/-- With the tables as in the libraries, `ParseSpotifyTrack` returns a record as soon as
the artist list and the artwork list are not empty, and the temporary name is not empty. -/
theorem parse_total (env : Env) (henv : env.Plain) (ft : FullTrack)
    (hartists : ft.Artists ≠ []) (himages : ft.Images ≠ []) :
    ∃ t, ParseSpotifyTrack env ft = some t ∧ t.FilenameTemp ≠ [] := by
  unfold ParseSpotifyTrack
  split
  · next h => exact absurd h hartists
  · next h => exact absurd h himages
  · rename_i artist others image images _ _
    simp only
    split
    · rename_i hnil
      obtain ⟨rest, hrest⟩ := sanitizeName_dot env henv _ (makeFilename_no_slash env henv artist _)
      rw [show ".".toList = ['.'] from rfl, List.singleton_append, hrest] at hnil
      exact absurd hnil (by simp)
    · rename_i c rest hcons
      refine ⟨_, rfl, ?_⟩
      simp only [hcons]
      exact List.cons_ne_nil _ _

/-- The example environment meets the assumptions on the tables. -/
theorem exampleEnv_plain : exampleEnv.Plain := by
  refine ⟨exampleEnv_plainAccents, ?_, ?_⟩
  · intro c hc
    simp only [exampleEnv]
    split
    · rename_i h
      rw [h] at hc
      exact absurd hc (by decide)
    · rfl
  · intro c hc hlow
    simp only [exampleEnv] at hlow
    omega

/-- C7 as stated fails: on a record with an empty artist list and on a record with an empty
artwork list `ParseSpotifyTrack` panics. -/
theorem parse_panics_on_empty_lists :
    ParseSpotifyTrack exampleEnv (exampleRecord "One More Time" []) = none ∧
    ParseSpotifyTrack exampleEnv bareRecord = none := by
  decide

/-- C7, amended: with the tables as in the libraries, `ParseSpotifyTrack` returns a record
for every remote record whose artist list and artwork list are not empty; the temporary
name it slices is never empty. -/
theorem parse_returns (env : Env) (henv : env.Plain) (ft : FullTrack)
    (hartists : ft.Artists ≠ []) (himages : ft.Images ≠ []) :
    ∃ t, ParseSpotifyTrack env ft = some t ∧ t.FilenameTemp ≠ [] := by
  exact parse_total env henv ft hartists himages

/-- C7, amended, on a degenerate record: empty title, empty artist name. -/
theorem parse_returns_witness :
    exampleEnv.Plain ∧ (exampleRecord "" [""]).Artists ≠ [] ∧ (exampleRecord "" [""]).Images ≠ [] ∧
    ∃ t, ParseSpotifyTrack exampleEnv (exampleRecord "" [""]) = some t ∧ t.FilenameTemp ≠ [] :=
  ⟨exampleEnv_plain, by decide, by decide,
    parse_returns exampleEnv exampleEnv_plain (exampleRecord "" [""]) (by decide) (by decide)⟩

/-- C10, evaluated: with one featuring artist, the raw title "Hello (Feat. Bob)" yields the
song "Hello (Feat. Bob)", which holds the marker "feat. " when lowercased, and the raw title
"Hello ft. Bob" yields the song "Hello ft. Bob", which holds the marker "ft. ". -/
theorem song_keeps_featuring_marker :
    (ParseSpotifyTrack exampleEnv (exampleRecord "Hello (Feat. Bob)" ["Adele", "Bob"])).map
      (fun t => t.Song) = some "Hello (Feat. Bob)".toList ∧
    Contains (ToLower exampleEnv "Hello (Feat. Bob)".toList) "feat. ".toList = true ∧
    (ParseSpotifyTrack exampleEnv (exampleRecord "Hello ft. Bob" ["Adele", "Bob"])).map
      (fun t => t.Song) = some "Hello ft. Bob".toList ∧
    Contains (ToLower exampleEnv "Hello ft. Bob".toList) "ft. ".toList = true := by
  decide

/-! ## The song name -/

/-- A non-empty trimmed string starts with a rune that is not white space. -/
theorem trimSpace_head (s : GoString) (h : TrimSpace s ≠ []) :
    ∃ c rest, TrimSpace s = c :: rest ∧ isSpace c = false := by
  unfold TrimSpace trimBoth at h ⊢
  rw [trimRight_eq] at h ⊢
  obtain ⟨b, hb⟩ := List.rdropWhile_prefix isSpace (l := List.dropWhile isSpace s)
  cases hr : List.rdropWhile isSpace (List.dropWhile isSpace s) with
  | nil => exact absurd hr h
  | cons c rest =>
    refine ⟨c, rest, rfl, ?_⟩
    rw [hr] at hb
    have hhead := List.head?_dropWhile_not isSpace s
    rw [← hb] at hhead
    simpa using hhead

/-- Cutting at `" (ft. "` a string that starts with another rune than the space keeps that
rune. -/
theorem splitFirst_marker_head (c : Char) (rest : GoString) (hc : c ≠ ' ') :
    SplitFirst " (ft. ".toList (c :: rest) ≠ [] := by
  rw [show " (ft. ".toList = [' ', '(', 'f', 't', '.', ' '] from rfl]
  simp [SplitFirst, HasPrefix, hc]

/-- The title after the featuring step starts with a rune that is not the space, when the
cleaned title does. -/
theorem featuredTitle_head (env : Env) (c : Char) (rest : GoString) (hc : c ≠ ' ')
    (featurings : List GoString) :
    ∃ d tail, featuredTitle env (c :: rest) featurings = d :: tail ∧ d ≠ ' ' := by
  unfold featuredTitle
  split
  · split
    · simp only [Replace, replaceAux]
      split
      · exact ⟨'f', _, rfl, by decide⟩
      · exact ⟨c, _, rfl, hc⟩
    · exact ⟨c, _, rfl, hc⟩
  · exact ⟨c, _, rfl, hc⟩

example : (ParseSpotifyTrack exampleEnv (exampleRecord " - Remastered 2009" ["Daft Punk", "Romanthony"])).map (fun t => (t.Title, t.Song)) = some (" (ft. Romanthony)".toList, []) := by decide
example : sanitizeName exampleEnv "?".toList = [] := by decide

/-- C11 as stated fails: the record with the empty raw title and one artist parses with an
empty song, and so does the record with raw title " - Remastered 2009" and a featuring
artist, whose title is " (ft. Romanthony)". -/
theorem song_empty_on_empty_title :
    (ParseSpotifyTrack exampleEnv (exampleRecord "" ["Daft Punk"])).map
      (fun t => t.Song) = some [] ∧
    (ParseSpotifyTrack exampleEnv
      (exampleRecord " - Remastered 2009" ["Daft Punk", "Romanthony"])).map
      (fun t => (t.Title, t.Song)) = some (" (ft. Romanthony)".toList, []) := by
  decide

/-- C11, amended: for every remote record on which `ParseSpotifyTrack` succeeds and whose
cleaned title (raw title cut at the first " - " and at " live ", then trimmed) is not
empty, the resulting song is not the empty string. -/
theorem song_not_empty (env : Env) (ft : FullTrack) (t : Track)
    (hparse : ParseSpotifyTrack env ft = some t) (htitle : cleanTitle ft.Name ≠ []) :
    t.Song ≠ [] := by
  obtain ⟨artist, others, image, images, _, _, _, hT, hsong, _⟩ := parse_some env ft t hparse
  obtain ⟨c, rest, hc, hsp⟩ := trimSpace_head _ htitle
  have hcs : c ≠ ' ' := by
    rintro rfl
    exact absurd hsp (by decide)
  have hclean : cleanTitle ft.Name = c :: rest := hc
  obtain ⟨d, tail, hd, hds⟩ := featuredTitle_head env c rest hcs others
  rw [hclean, hd] at hT
  rw [hsong, hT]
  split
  · exact splitFirst_marker_head d tail hds
  · exact List.cons_ne_nil _ _

/-- C11, amended, at the record "One More Time - Radio Edit" by "Daft Punk" featuring
"Romanthony", whose song is "One More Time". -/
theorem song_not_empty_witness :
    cleanTitle (exampleRecord "One More Time - Radio Edit" ["Daft Punk", "Romanthony"]).Name ≠ [] ∧
    ∃ t, ParseSpotifyTrack exampleEnv
        (exampleRecord "One More Time - Radio Edit" ["Daft Punk", "Romanthony"]) = some t ∧
      t.Song = "One More Time".toList ∧ t.Song ≠ [] :=
  ⟨by decide, _, rfl, by decide,
    song_not_empty exampleEnv
      (exampleRecord "One More Time - Radio Edit" ["Daft Punk", "Romanthony"]) _ rfl (by decide)⟩

/-- A non-empty song does not keep the word match from searching for an empty token: the
record "?" by "Daft Punk" has the song "?", whose token is empty after `sanitize.Name`, and
its word match accepts "Daft Punk - Around the World"; for the empty song the token is ".". -/
theorem word_match_token_examples :
    (ParseSpotifyTrack exampleEnv (exampleRecord "?" ["Daft Punk"])).map
      (fun t => (t.Song, t.SeemsByWordMatch exampleEnv "Daft Punk - Around the World".toList)) =
      some ("?".toList, true) ∧
    sanitizeName exampleEnv "?".toList = [] ∧
    sanitizeName exampleEnv [] = ".".toList := by
  decide

end Spotitube
